import Mathlib

/-!
Verification of the beads_viewer graph analytics engine against its
natural-language specification.

The development shallowly embeds the relevant Go source:
  - the insights aggregator (package analysis: getTopItems, GenerateInsights),
  - the dependency-graph builder and layer computation (package ui: buildGraph,
    computeLayer, the navigation methods and SelectedIssue).

Metric values are float64 in the source; the spec restricts metric maps to
finite real numbers and the aggregator only compares values (no arithmetic),
so values are embedded as rationals, on which comparison agrees with IEEE
comparison of finite floats.  Go maps are embedded as association lists; map
iteration order, which Go leaves unspecified, becomes an explicit list order
or an explicit order parameter.
-/

set_option maxHeartbeats 1000000
set_option linter.unusedVariables false

namespace BeadsViewer

/-! ### Insights aggregator (package analysis)

Source: getTopItems builds a slice of key/value pairs from the metric map,
sorts it with sort.Slice using the comparator below, and takes the first
limit entries.  The comparator is a strict weak order whose induced
non-strict order is antisymmetric on pairs, so the sorted arrangement of a
given multiset of pairs is unique; sort.Slice therefore produces the same
list as any correct sort, and we embed it as insertionSort. -/

/-- The sort.Slice comparator from getTopItems:
if values are equal compare keys ascending, else compare values descending. -/
def ltKV (a b : String × Rat) : Bool :=
  if a.2 = b.2 then decide (a.1 < b.1) else decide (b.2 < a.2)

/-- The non-strict order induced by the comparator: a may come before b. -/
def leKV (a b : String × Rat) : Prop := ltKV b a = false

instance : DecidableRel leKV :=
  fun a b => inferInstanceAs (Decidable (ltKV b a = false))

/-- The ranking order stated by the spec: value descending, ties broken by
identifier ascending. -/
def valueIdOrder (a b : String × Rat) : Prop :=
  b.2 < a.2 ∨ (a.2 = b.2 ∧ a.1 ≤ b.1)

theorem leKV_iff (a b : String × Rat) : leKV a b ↔ valueIdOrder a b := by
  unfold leKV ltKV valueIdOrder
  by_cases h : b.2 = a.2
  · simp only [if_pos h, decide_eq_false_iff_not, not_lt]
    constructor
    · intro hle
      exact Or.inr ⟨h.symm, hle⟩
    · rintro (hv | ⟨-, hle⟩)
      · exact absurd hv (by rw [h]; exact lt_irrefl _)
      · exact hle
  · simp only [if_neg h, decide_eq_false_iff_not, not_lt]
    constructor
    · intro hle
      exact Or.inl (lt_of_le_of_ne hle h)
    · rintro (hv | ⟨hv, -⟩)
      · exact le_of_lt hv
      · exact absurd hv.symm h

instance : IsTotal (String × Rat) leKV := by
  constructor
  intro a b
  rw [leKV_iff, leKV_iff]
  unfold valueIdOrder
  rcases lt_trichotomy a.2 b.2 with h | h | h
  · exact Or.inr (Or.inl h)
  · rcases le_total a.1 b.1 with h1 | h1
    · exact Or.inl (Or.inr ⟨h, h1⟩)
    · exact Or.inr (Or.inr ⟨h.symm, h1⟩)
  · exact Or.inl (Or.inl h)

instance : IsTrans (String × Rat) leKV := by
  constructor
  intro a b c hab hbc
  rw [leKV_iff] at hab hbc ⊢
  rcases hab with hv | ⟨hv, hid⟩
  · rcases hbc with hv2 | ⟨hv2, -⟩
    · exact Or.inl (lt_trans hv2 hv)
    · exact Or.inl (hv2 ▸ hv)
  · rcases hbc with hv2 | ⟨hv2, hid2⟩
    · exact Or.inl (hv ▸ hv2)
    · exact Or.inr ⟨hv.trans hv2, le_trans hid hid2⟩

instance : IsAntisymm (String × Rat) leKV := by
  constructor
  intro a b hab hba
  rw [leKV_iff] at hab hba
  rcases hab with hv | ⟨hv, hid⟩
  · rcases hba with hv2 | ⟨hv2, -⟩
    · exact absurd (lt_trans hv hv2) (lt_irrefl _)
    · exact absurd (hv2 ▸ hv) (lt_irrefl _)
  · rcases hba with hv2 | ⟨-, hid2⟩
    · exact absurd (hv ▸ hv2) (lt_irrefl _)
    · exact Prod.ext (le_antisymm hid hid2) hv

/-- Embedding of getTopItems: sort the entries of the metric map with the
comparator, then keep the first limit entries (a non-positive limit keeps
none, as in the Go loop bound).  The metric map argument is the association
list of the Go map entries, in an arbitrary iteration order. -/
def getTopItems (m : List (String × Rat)) (limit : Int) : List (String × Rat) :=
  (List.insertionSort leKV m).take limit.toNat

/-- Embedding of the Insights summary structure.  The Orphans field is never
assigned by GenerateInsights and the Stats field is a back-pointer to the
input; both are omitted. -/
structure Insights where
  bottlenecks : List (String × Rat)
  keystones : List (String × Rat)
  influencers : List (String × Rat)
  hubs : List (String × Rat)
  authorities : List (String × Rat)
  cycles : List (List String)
  clusterDensity : Rat
deriving DecidableEq

/-- Modelled from the spec: the GraphStats record and its accessor methods
(PageRank, Betweenness, CriticalPathScore, Eigenvector, Hubs, Authorities,
Cycles) are code of this repository missing from src — only GenerateInsights
and getTopItems are present.  Per the spec a metric map sends each node
identifier to a finite real number, one entry per node, and the accessors
return thread-safe copies of those maps; we model them as record fields
holding association lists of entries. -/
structure GraphStats where
  pageRank : List (String × Rat)
  betweenness : List (String × Rat)
  criticalPathScore : List (String × Rat)
  eigenvector : List (String × Rat)
  hubsMap : List (String × Rat)
  authoritiesMap : List (String × Rat)
  cyclesList : List (List String)
  density : Rat

/-- Embedding of GraphStats.GenerateInsights: a non-positive limit is
replaced by the size of the PageRank map, then each ranked list is produced
by getTopItems. -/
def GraphStats.generateInsights (s : GraphStats) (limit : Int) : Insights :=
  let lim : Int := if limit ≤ 0 then (s.pageRank.length : Int) else limit
  { bottlenecks := getTopItems s.betweenness lim
    keystones := getTopItems s.criticalPathScore lim
    influencers := getTopItems s.eigenvector lim
    hubs := getTopItems s.hubsMap lim
    authorities := getTopItems s.authoritiesMap lim
    cycles := s.cyclesList
    clusterDensity := s.density }

theorem sorted_leKV_insertionSort (m : List (String × Rat)) :
    (List.insertionSort leKV m).Sorted leKV :=
  List.sorted_insertionSort leKV m

theorem sorted_valueIdOrder_insertionSort (m : List (String × Rat)) :
    (List.insertionSort leKV m).Sorted valueIdOrder :=
  (sorted_leKV_insertionSort m).imp (fun h => (leKV_iff _ _).mp h)

theorem getTopItems_sorted (m : List (String × Rat)) (limit : Int) :
    (getTopItems m limit).Sorted valueIdOrder :=
  (sorted_valueIdOrder_insertionSort m).sublist (List.take_sublist _ _)

theorem getTopItems_length (m : List (String × Rat)) (limit : Int) :
    (getTopItems m limit).length = min limit.toNat m.length := by
  unfold getTopItems
  rw [List.length_take, List.length_insertionSort]

/-- Two iteration orders of the same map entries sort identically. -/
theorem insertionSort_leKV_congr {m m' : List (String × Rat)}
    (h : m.Perm m') :
    List.insertionSort leKV m = List.insertionSort leKV m' := by
  refine List.eq_of_perm_of_sorted ?_ (sorted_leKV_insertionSort m)
    (sorted_leKV_insertionSort m')
  exact (List.perm_insertionSort leKV m).trans
    (h.trans (List.perm_insertionSort leKV m').symm)

theorem getTopItems_congr {m m' : List (String × Rat)} (h : m.Perm m')
    (limit : Int) : getTopItems m limit = getTopItems m' limit := by
  unfold getTopItems
  rw [insertionSort_leKV_congr h]

theorem getTopItems_perm_of_le {m : List (String × Rat)} {lim : Int}
    (h : m.length ≤ lim.toNat) : (getTopItems m lim).Perm m := by
  unfold getTopItems
  rw [List.take_of_length_le (by rw [List.length_insertionSort]; exact h)]
  exact List.perm_insertionSort leKV m

/-- C1: for every metric map and every positive limit N, getTopItems returns
a list that is the first part of a full ranking of the map (value descending,
ties by identifier ascending), is itself so ordered, and has min N (map size)
entries; in particular, with equal values for ids bv-2 and bv-1, bv-1 is
placed first. -/
theorem c1_getTopItems_ranked (m : List (String × Rat)) (N : Int)
    (hN : 0 < N) :
    (∃ rest, (getTopItems m N ++ rest).Perm m ∧
      (getTopItems m N ++ rest).Sorted valueIdOrder) ∧
    (getTopItems m N).Sorted valueIdOrder ∧
    (getTopItems m N).length = min N.toNat m.length ∧
    (∀ v : Rat,
      getTopItems [("bv-2", v), ("bv-1", v)] 2 = [("bv-1", v), ("bv-2", v)]) := by
  refine ⟨⟨(List.insertionSort leKV m).drop N.toNat, ?_, ?_⟩,
    getTopItems_sorted m N, getTopItems_length m N, ?_⟩
  · rw [getTopItems, List.take_append_drop]
    exact List.perm_insertionSort leKV m
  · rw [getTopItems, List.take_append_drop]
    exact sorted_valueIdOrder_insertionSort m
  · intro v
    have hne : ¬ leKV ("bv-2", v) ("bv-1", v) := by
      rw [leKV_iff]
      have hstr : ¬ ("bv-2" : String) ≤ "bv-1" := by
        rw [String.le_iff_toList_le]
        decide
      rintro (h | ⟨-, h⟩)
      · exact absurd h (lt_irrefl v)
      · exact absurd h hstr
    simp [getTopItems, List.insertionSort, List.orderedInsert, if_neg hne]

theorem c1_getTopItems_ranked_witness :
    getTopItems [("bv-2", (1 : Rat)), ("bv-1", (1 : Rat))] 2 =
      [("bv-1", (1 : Rat)), ("bv-2", (1 : Rat))] :=
  (c1_getTopItems_ranked [("bv-2", 1), ("bv-1", 1)] 2 (by decide)).2.2.2 1

/-- C2: with the spec invariant that all metric maps have one entry per node
(equal sizes), GenerateInsights with limit at most 0 returns, in each of its
five ranked lists, a fully ordered permutation of the underlying metric map
(no truncation), and with limit N positive each list has exactly
min N (number of nodes) entries. -/
theorem c2_generateInsights_limit (s : GraphStats) (N : Int)
    (h1 : s.betweenness.length = s.pageRank.length)
    (h2 : s.criticalPathScore.length = s.pageRank.length)
    (h3 : s.eigenvector.length = s.pageRank.length)
    (h4 : s.hubsMap.length = s.pageRank.length)
    (h5 : s.authoritiesMap.length = s.pageRank.length) :
    (N ≤ 0 →
      ((s.generateInsights N).bottlenecks.Perm s.betweenness ∧
        (s.generateInsights N).bottlenecks.Sorted valueIdOrder) ∧
      ((s.generateInsights N).keystones.Perm s.criticalPathScore ∧
        (s.generateInsights N).keystones.Sorted valueIdOrder) ∧
      ((s.generateInsights N).influencers.Perm s.eigenvector ∧
        (s.generateInsights N).influencers.Sorted valueIdOrder) ∧
      ((s.generateInsights N).hubs.Perm s.hubsMap ∧
        (s.generateInsights N).hubs.Sorted valueIdOrder) ∧
      ((s.generateInsights N).authorities.Perm s.authoritiesMap ∧
        (s.generateInsights N).authorities.Sorted valueIdOrder)) ∧
    (0 < N →
      (s.generateInsights N).bottlenecks.length = min N.toNat s.betweenness.length ∧
      (s.generateInsights N).keystones.length = min N.toNat s.criticalPathScore.length ∧
      (s.generateInsights N).influencers.length = min N.toNat s.eigenvector.length ∧
      (s.generateInsights N).hubs.length = min N.toNat s.hubsMap.length ∧
      (s.generateInsights N).authorities.length = min N.toNat s.authoritiesMap.length) := by
  constructor
  · intro hN
    have hfull : ∀ m : List (String × Rat),
        m.length = s.pageRank.length →
        (getTopItems m (s.pageRank.length : Int)).Perm m ∧
        (getTopItems m (s.pageRank.length : Int)).Sorted valueIdOrder := by
      intro m hm
      refine ⟨getTopItems_perm_of_le ?_, getTopItems_sorted _ _⟩
      simp [hm]
    simp only [GraphStats.generateInsights, if_pos hN]
    exact ⟨hfull _ h1, hfull _ h2, hfull _ h3, hfull _ h4, hfull _ h5⟩
  · intro hN
    simp only [GraphStats.generateInsights, if_neg (not_le.mpr hN)]
    exact ⟨getTopItems_length _ _, getTopItems_length _ _, getTopItems_length _ _,
      getTopItems_length _ _, getTopItems_length _ _⟩

theorem c2_generateInsights_limit_witness :
    ((GraphStats.mk [("a", 1)] [("a", 2)] [("a", 3)] [("a", 4)] [("a", 5)]
        [("a", 6)] [] 0).generateInsights 0).bottlenecks.Perm [("a", 2)] :=
  ((c2_generateInsights_limit
      (GraphStats.mk [("a", 1)] [("a", 2)] [("a", 3)] [("a", 4)] [("a", 5)]
        [("a", 6)] [] 0) 0 rfl rfl rfl rfl rfl).1 (by decide)).1.1

/-- C3: GenerateInsights is deterministic: two stats whose metric maps hold
the same entries (in any iteration order) and whose cycle list and density
agree produce identical Insights values, for every limit. -/
theorem c3_generateInsights_deterministic (s t : GraphStats) (limit : Int)
    (hp : s.pageRank.Perm t.pageRank)
    (hb : s.betweenness.Perm t.betweenness)
    (hc : s.criticalPathScore.Perm t.criticalPathScore)
    (he : s.eigenvector.Perm t.eigenvector)
    (hh : s.hubsMap.Perm t.hubsMap)
    (ha : s.authoritiesMap.Perm t.authoritiesMap)
    (hcy : s.cyclesList = t.cyclesList)
    (hd : s.density = t.density) :
    s.generateInsights limit = t.generateInsights limit := by
  simp only [GraphStats.generateInsights, hp.length_eq, hcy, hd,
    getTopItems_congr hb, getTopItems_congr hc, getTopItems_congr he,
    getTopItems_congr hh, getTopItems_congr ha]

theorem c3_generateInsights_deterministic_witness :
    (GraphStats.mk [("a", 1), ("b", 2)] [("a", 1), ("b", 1)] [] [] [] [] [] 0
      ).generateInsights 5 =
    (GraphStats.mk [("b", 2), ("a", 1)] [("b", 1), ("a", 1)] [] [] [] [] [] 0
      ).generateInsights 5 :=
  c3_generateInsights_deterministic _ _ 5 (by decide) (by decide) (by decide)
    (by decide) (by decide) (by decide) rfl rfl

/-- C9: insight generation on the empty graph never fails: getTopItems on an
empty metric map returns the empty list for every limit, and GenerateInsights
on all-empty metric maps returns an Insights value in which every ranked list
is empty. -/
theorem c9_empty_graph_insights :
    (∀ limit : Int, getTopItems [] limit = []) ∧
    (∀ limit : Int,
      (GraphStats.mk [] [] [] [] [] [] [] 0).generateInsights limit =
        Insights.mk [] [] [] [] [] [] 0) := by
  constructor
  · intro limit
    simp [getTopItems, List.insertionSort]
  · intro limit
    simp [GraphStats.generateInsights, getTopItems, List.insertionSort]

/-! ### Dependency graph builder (package ui, buildGraph)

Source: buildGraph collects the structural dependencies of each issue into
the dependsOn adjacency map, computes a layer for every id by a memoized
depth-first recursion (computeLayer), groups ids by layer (sorted within a
layer), and finally emits one drawn edge per structural dependency whose
endpoints are both present.  The Go recursion terminates because the visited
set grows on every nested call; we embed it with a fuel argument and prove
that the fuel bound of one more than the number of node ids is never
exhausted, so the embedding agrees with the Go recursion everywhere. -/

/-- Dependency kinds.  Only blocks and parent-child are structural. -/
inductive DepType where
  | blocks
  | parentChild
  | relatesTo
  | discoveredFrom
deriving DecidableEq

/-- One dependency record of an issue: the id it depends on and the kind. -/
structure Dep where
  dependsOnID : String
  depType : DepType
deriving DecidableEq

/-- One work item, reduced to the fields buildGraph reads. -/
structure Issue where
  id : String
  deps : List Dep
deriving DecidableEq

def isStructural : DepType → Bool
  | .blocks => true
  | .parentChild => true
  | _ => false

/-- The id set of the issue list (allIDs and the issueMap key set agree). -/
def nodeIDs (issues : List Issue) : List String := (issues.map Issue.id).dedup

def structuralTargets (i : Issue) : List String :=
  (i.deps.filter (fun d => isStructural d.depType)).map Dep.dependsOnID

/-- The dependsOn adjacency map of buildGraph: for an id, the structural
dependency targets appended in issue order. -/
def dependsOn (issues : List Issue) (x : String) : List String :=
  ((issues.filter (fun i => i.id == x)).map structuralTargets).flatten

/-- The prerequisites computeLayer actually recurses into: the dependsOn
entries whose target exists in the issue map. -/
def prereqsU (issues : List Issue) (x : String) : List String :=
  (dependsOn issues x).filter (fun p => decide (p ∈ nodeIDs issues))

/-- The mutable state of the layer computation: the memo table (the layers
map) and the visited set of the current top-level traversal. -/
structure LState where
  layers : List (String × Int)
  visited : List String
deriving DecidableEq

/-- Embedding of computeLayer with explicit fuel.  One unit of fuel is spent
per nested call; lemma computeLayerF_succeeds shows the fuel bound used by
computeAllLayers is never exhausted.  A memoized id returns its stored layer;
an id on the current traversal path returns 0 (the cycle-detected branch);
otherwise the maximum of the prerequisite layers is computed, starting from
-1, and the id is memoized at that maximum plus one. -/
def computeLayerF (issues : List Issue) : Nat → String → LState → Option (Int × LState)
  | 0, _, _ => none
  | fuel + 1, id, st =>
    match st.layers.lookup id with
    | some v => some (v, st)
    | none =>
      if id ∈ st.visited then some (0, st)
      else
        match (prereqsU issues id).foldl
            (fun acc p =>
              match acc with
              | none => none
              | some (mx, st1) =>
                match computeLayerF issues fuel p st1 with
                | none => none
                | some (pl, st2) => some (max mx pl, st2))
            (some (-1, ⟨st.layers, id :: st.visited⟩)) with
        | none => none
        | some (mp, st2) => some (mp + 1, ⟨(id, mp + 1) :: st2.layers, st2.visited⟩)

/-- Fuel bound used by the total wrapper: one more than the node count. -/
def fuelBound (issues : List Issue) : Nat := (nodeIDs issues).length + 1

/-- One step of the buildGraph loop over allIDs: a computeLayer call with a
fresh visited set, keeping the memo table. -/
def layersFold (issues : List Issue) (L : List (String × Int)) (id : String) :
    List (String × Int) :=
  match computeLayerF issues (fuelBound issues) id ⟨L, []⟩ with
  | none => L
  | some (_, st) => st.layers

/-- Embedding of the buildGraph loop over allIDs: one computeLayer call per
id with a fresh visited set, threading the memo table.  Go iterates the
allIDs map in unspecified order, so the order is a parameter. -/
def computeAllLayers (issues : List Issue) (order : List String) :
    List (String × Int) :=
  order.foldl (layersFold issues) []

/-- The per-prerequisite step of the computeLayer loop, as it occurs inside
computeLayerF at one fuel level lower. -/
def layerStep (issues : List Issue) (fuel : Nat) :
    Option (Int × LState) → String → Option (Int × LState) :=
  fun acc p =>
    match acc with
    | none => none
    | some (mx, st1) =>
      match computeLayerF issues fuel p st1 with
      | none => none
      | some (pl, st2) => some (max mx pl, st2)

theorem computeLayerF_succ (issues : List Issue) (fuel : Nat) (id : String)
    (st : LState) :
    computeLayerF issues (fuel + 1) id st =
      match st.layers.lookup id with
      | some v => some (v, st)
      | none =>
        if id ∈ st.visited then some (0, st)
        else
          match (prereqsU issues id).foldl (layerStep issues fuel)
              (some (-1, ⟨st.layers, id :: st.visited⟩)) with
          | none => none
          | some (mp, st2) => some (mp + 1, ⟨(id, mp + 1) :: st2.layers, st2.visited⟩) :=
  rfl

theorem lookup_cons_self {a : String} {b : Int} {l : List (String × Int)} :
    ((a, b) :: l).lookup a = some b := by
  simp [List.lookup_cons]

theorem lookup_cons_ne {k a : String} (h : k ≠ a) {b : Int}
    {l : List (String × Int)} : ((a, b) :: l).lookup k = l.lookup k := by
  simp [List.lookup_cons, beq_false_of_ne h]

theorem prereqsU_mem_nodeIDs {issues : List Issue} {x p : String}
    (h : p ∈ prereqsU issues x) : p ∈ nodeIDs issues := by
  unfold prereqsU at h
  rw [List.mem_filter] at h
  simpa using h.2

/-- Number of node ids not yet visited; the recursion depth bound. -/
def remaining (issues : List Issue) (visited : List String) : Nat :=
  ((nodeIDs issues).filter (fun x => decide (x ∉ visited))).length

theorem remaining_mono (issues : List Issue) {v v' : List String} (h : v ⊆ v') :
    remaining issues v' ≤ remaining issues v := by
  apply List.Sublist.length_le
  apply List.monotone_filter_right
  intro a ha
  simp only [decide_eq_true_eq] at ha ⊢
  intro hmem
  exact ha (h hmem)

theorem remaining_cons_lt {issues : List Issue} {v : List String} {id : String}
    (hid : id ∈ nodeIDs issues) (hnv : id ∉ v) :
    remaining issues (id :: v) < remaining issues v := by
  unfold remaining
  have hsub : List.Sublist
      ((nodeIDs issues).filter (fun x => decide (x ∉ id :: v)))
      ((nodeIDs issues).filter (fun x => decide (x ∉ v))) := by
    apply List.monotone_filter_right
    intro a ha
    simp only [decide_eq_true_eq] at ha ⊢
    intro hmem
    exact ha (List.mem_cons_of_mem _ hmem)
  refine lt_of_le_of_ne hsub.length_le (fun heq => ?_)
  have hEq := hsub.eq_of_length heq
  have hmemr : id ∈ (nodeIDs issues).filter (fun x => decide (x ∉ v)) := by
    rw [List.mem_filter]
    exact ⟨hid, by simpa using hnv⟩
  rw [← hEq, List.mem_filter] at hmemr
  have := hmemr.2
  simp only [decide_eq_true_eq] at this
  exact this (List.mem_cons_self _ _)

theorem remaining_nil (issues : List Issue) :
    remaining issues [] = (nodeIDs issues).length := by
  simp [remaining]

/-- Fuel sufficiency: with fuel exceeding the number of unvisited node ids,
computeLayerF returns a result; the visited set only grows, memo entries are
only added, and the requested id ends up either already on the path or
memoized.  This holds for arbitrary graphs, cyclic or not. -/
theorem computeLayerF_succeeds (issues : List Issue) :
    ∀ (fuel : Nat) (id : String) (st : LState), id ∈ nodeIDs issues →
    remaining issues st.visited < fuel →
    ∃ v st', computeLayerF issues fuel id st = some (v, st') ∧
      st.visited ⊆ st'.visited ∧
      (∀ k, (st.layers.lookup k).isSome → (st'.layers.lookup k).isSome) ∧
      (id ∈ st.visited ∨ (st'.layers.lookup id).isSome) := by
  intro fuel
  induction fuel with
  | zero =>
    intro id st _ h
    exact absurd h (Nat.not_lt_zero _)
  | succ fuel ih =>
    have hfold : ∀ (ps : List String) (st : LState) (acc : Int),
        (∀ p ∈ ps, p ∈ nodeIDs issues) →
        remaining issues st.visited < fuel →
        ∃ m st₂,
          ps.foldl (layerStep issues fuel) (some (acc, st)) = some (m, st₂) ∧
          st.visited ⊆ st₂.visited ∧
          (∀ k, (st.layers.lookup k).isSome → (st₂.layers.lookup k).isSome) := by
      intro ps
      induction ps with
      | nil =>
        intro st acc _ _
        exact ⟨acc, st, rfl, List.Subset.refl _, fun _ h => h⟩
      | cons p rest ihp =>
        intro st acc hps hrem
        obtain ⟨v, st1, he, hvis, hsome, -⟩ :=
          ih p st (hps p (List.mem_cons_self _ _)) hrem
        have hrem1 : remaining issues st1.visited < fuel :=
          lt_of_le_of_lt (remaining_mono issues hvis) hrem
        obtain ⟨m, st₂, he₂, hvis₂, hsome₂⟩ :=
          ihp st1 (max acc v) (fun q hq => hps q (List.mem_cons_of_mem _ hq)) hrem1
        refine ⟨m, st₂, ?_, List.Subset.trans hvis hvis₂,
          fun k hk => hsome₂ k (hsome k hk)⟩
        rw [List.foldl_cons]
        have hstep : layerStep issues fuel (some (acc, st)) p = some (max acc v, st1) := by
          simp [layerStep, he]
        rw [hstep, he₂]
    intro id st hid hrem
    cases hl : st.layers.lookup id with
    | some v =>
      refine ⟨v, st, ?_, List.Subset.refl _, fun _ h => h, Or.inr (by simp [hl])⟩
      rw [computeLayerF_succ, hl]
    | none =>
      by_cases hv : id ∈ st.visited
      · refine ⟨0, st, ?_, List.Subset.refl _, fun _ h => h, Or.inl hv⟩
        rw [computeLayerF_succ, hl]
        simp [hv]
      · have hremc : remaining issues (id :: st.visited) < fuel := by
          have := remaining_cons_lt hid hv
          omega
        obtain ⟨m, st₂, hf, hvis, hsome⟩ :=
          hfold (prereqsU issues id) ⟨st.layers, id :: st.visited⟩ (-1)
            (fun p hp => prereqsU_mem_nodeIDs hp) hremc
        refine ⟨m + 1, ⟨(id, m + 1) :: st₂.layers, st₂.visited⟩, ?_, ?_, ?_, Or.inr ?_⟩
        · rw [computeLayerF_succ, hl]
          simp only [if_neg hv]
          rw [hf]
        · exact fun k hk => hvis (List.mem_cons_of_mem _ hk)
        · intro k hk
          by_cases hk2 : k = id
          · subst hk2
            simp [lookup_cons_self]
          · rw [lookup_cons_ne hk2]
            exact hsome k hk
        · simp [lookup_cons_self]

theorem computeAllLayers_fold_isSome (issues : List Issue) :
    ∀ (order : List String) (L : List (String × Int)),
    (∀ id ∈ order, id ∈ nodeIDs issues) →
    ∀ k, (k ∈ order ∨ (L.lookup k).isSome) →
    ((order.foldl (layersFold issues) L).lookup k).isSome := by
  intro order
  induction order with
  | nil =>
    intro L _ k hk
    rcases hk with h | h
    · exact absurd h (List.not_mem_nil _)
    · exact h
  | cons id rest ihr =>
    intro L horder k hk
    have hrem : remaining issues (LState.mk L []).visited < fuelBound issues := by
      show remaining issues [] < fuelBound issues
      rw [remaining_nil]
      exact Nat.lt_succ_self _
    obtain ⟨v, st', he, -, hsome, hres⟩ :=
      computeLayerF_succeeds issues (fuelBound issues) id ⟨L, []⟩
        (horder id (List.mem_cons_self _ _)) hrem
    have hstep : layersFold issues L id = st'.layers := by
      simp [layersFold, he]
    rw [List.foldl_cons, hstep]
    have hres' : (st'.layers.lookup id).isSome := by
      rcases hres with h | h
      · exact absurd h (List.not_mem_nil _)
      · exact h
    rcases hk with hk | hk
    · rcases List.mem_cons.mp hk with rfl | hk
      · exact ihr st'.layers (fun q hq => horder q (List.mem_cons_of_mem _ hq)) k
          (Or.inr hres')
      · exact ihr st'.layers (fun q hq => horder q (List.mem_cons_of_mem _ hq)) k
          (Or.inl hk)
    · exact ihr st'.layers (fun q hq => horder q (List.mem_cons_of_mem _ hq)) k
        (Or.inr (hsome k hk))

/-- Go issueMap lookup: the map is filled in list order, so the last issue
with a given id wins. -/
def issueMapLookup (issues : List Issue) (x : String) : Option Issue :=
  issues.reverse.find? (fun i => i.id == x)

/-- The key set of the final layers map, as iterated by buildGraph. -/
def layerKeys (L : List (String × Int)) : List String :=
  (L.map Prod.fst).dedup

/-- The ids assigned a given layer, sorted as sort.Strings sorts
(lexicographically; the toList order provably agrees with the string order
and evaluates in the kernel). -/
def idsAtLayer (L : List (String × Int)) (l : Int) : List String :=
  List.insertionSort (fun a b => a.toList ≤ b.toList)
    ((layerKeys L).filter (fun k => L.lookup k == some l))

/-- The maxLayer loop of buildGraph, starting from 0. -/
def maxLayer (L : List (String × Int)) : Int :=
  (layerKeys L).foldl (fun m k => max m ((L.lookup k).getD 0)) 0

/-- A laid-out node, reduced to the fields the claims read. -/
structure GNode where
  id : String
  layer : Int
deriving DecidableEq

/-- The node list of buildGraph: layer by layer from 0 to maxLayer, the
sorted ids of that layer, skipping an id whose issueMap lookup fails (the
nil-issue guard in the source). -/
def nodesList (issues : List Issue) (order : List String) : List GNode :=
  ((List.range ((maxLayer (computeAllLayers issues order)).toNat + 1)).map
    (fun l =>
      (idsAtLayer (computeAllLayers issues order) (l : Int)).filterMap
        (fun k => (issueMapLookup issues k).map
          (fun _ => GNode.mk k (l : Int))))).flatten

/-- The nodeIndexMap of buildGraph: index of the node with the given id. -/
def nodeIdxOf (ns : List GNode) (x : String) : Option Nat :=
  ns.findIdx? (fun n => n.id == x)

/-- A drawn edge: from the dependency node index to the dependent index. -/
structure GEdge where
  fromIdx : Nat
  toIdx : Nat
  depType : DepType
deriving DecidableEq

/-- The edge list of buildGraph: per issue in list order, per structural
dependency whose endpoints both resolve to node indices, one edge from the
dependency to the dependent. -/
def edgesList (issues : List Issue) (order : List String) : List GEdge :=
  (issues.map (fun i =>
    match nodeIdxOf (nodesList issues order) i.id with
    | none => []
    | some di =>
      i.deps.filterMap (fun d =>
        if isStructural d.depType then
          (nodeIdxOf (nodesList issues order) d.dependsOnID).map
            (fun si => GEdge.mk si di d.depType)
        else none))).flatten

/-- The structural prerequisite relation restricted to present nodes: b is a
prerequisite of a recorded in the node set. -/
def stepR (issues : List Issue) (a b : String) : Prop := b ∈ prereqsU issues a

/-- The layer value stored for p; a missing key reads as 0, as a Go map read
does (the branch never occurs for the keys the theorems use). -/
def layerVal (L : List (String × Int)) (p : String) : Int := (L.lookup p).getD 0

/-- The running maximum computeLayer builds over a prerequisite list. -/
def maxFold (L : List (String × Int)) (ps : List String) (acc : Int) : Int :=
  ps.foldl (fun a p => max a (layerVal L p)) acc

/-- The memo table is coherent: every stored layer equals one more than the
running maximum (from -1) of its prerequisite layers, all of which are
stored. -/
def Coherent (issues : List Issue) (L : List (String × Int)) : Prop :=
  ∀ k v, L.lookup k = some v →
    (∀ p ∈ prereqsU issues k, (L.lookup p).isSome) ∧
    v = maxFold L (prereqsU issues k) (-1) + 1

theorem maxFold_congr {L L' : List (String × Int)} {ps : List String}
    (h : ∀ p ∈ ps, layerVal L p = layerVal L' p) :
    ∀ acc, maxFold L ps acc = maxFold L' ps acc := by
  induction ps with
  | nil => intro acc; rfl
  | cons p rest ih =>
    intro acc
    have hp := h p (List.mem_cons_self _ _)
    have hrest := ih (fun q hq => h q (List.mem_cons_of_mem _ hq))
    simp only [maxFold, List.foldl_cons] at hrest ⊢
    rw [hp, hrest]

theorem acc_le_maxFold (L : List (String × Int)) (ps : List String) :
    ∀ acc, acc ≤ maxFold L ps acc := by
  induction ps with
  | nil => intro acc; exact le_refl _
  | cons p rest ih =>
    intro acc
    calc acc ≤ max acc (layerVal L p) := le_max_left _ _
      _ ≤ maxFold L rest (max acc (layerVal L p)) := ih _
      _ = maxFold L (p :: rest) acc := rfl

theorem layerVal_le_maxFold (L : List (String × Int)) {ps : List String}
    {p : String} (hp : p ∈ ps) : ∀ acc, layerVal L p ≤ maxFold L ps acc := by
  induction ps with
  | nil => exact absurd hp (List.not_mem_nil _)
  | cons q rest ih =>
    intro acc
    rcases List.mem_cons.mp hp with rfl | hp'
    · calc layerVal L p ≤ max acc (layerVal L p) := le_max_right _ _
        _ ≤ maxFold L rest (max acc (layerVal L p)) := acc_le_maxFold _ _ _
        _ = maxFold L (p :: rest) acc := rfl
    · exact ih hp' _

theorem maxFold_eq_acc_or_mem (L : List (String × Int)) (ps : List String) :
    ∀ acc, maxFold L ps acc = acc ∨ ∃ p ∈ ps, maxFold L ps acc = layerVal L p := by
  induction ps with
  | nil => intro acc; exact Or.inl rfl
  | cons p rest ih =>
    intro acc
    have hcons : maxFold L (p :: rest) acc =
        maxFold L rest (max acc (layerVal L p)) := rfl
    rcases ih (max acc (layerVal L p)) with h | ⟨q, hq, h⟩
    · rcases max_choice acc (layerVal L p) with hm | hm
      · exact Or.inl (by rw [hcons, h, hm])
      · exact Or.inr ⟨p, List.mem_cons_self _ _, by rw [hcons, h, hm]⟩
    · exact Or.inr ⟨q, List.mem_cons_of_mem _ hq, by rw [hcons, h]⟩

theorem Coherent.nonneg {issues : List Issue} {L : List (String × Int)}
    (h : Coherent issues L) {k : String} {v : Int}
    (hk : L.lookup k = some v) : 0 ≤ v := by
  have := (h k v hk).2
  have hacc := acc_le_maxFold L (prereqsU issues k) (-1)
  omega

theorem coherent_nil (issues : List Issue) : Coherent issues [] := by
  intro k v hk
  simp [List.lookup] at hk

/-- Adding a fresh coherent entry keeps the table coherent: the new id must
be absent, its prerequisites stored, its value the recurrence value, and it
must not be its own prerequisite. -/
theorem coherent_insert {issues : List Issue} {L : List (String × Int)}
    {nid : String} {v : Int}
    (hcoh : Coherent issues L)
    (hid : L.lookup nid = none)
    (hps : ∀ p ∈ prereqsU issues nid, (L.lookup p).isSome)
    (hv : v = maxFold L (prereqsU issues nid) (-1) + 1)
    (hself : nid ∉ prereqsU issues nid) :
    Coherent issues ((nid, v) :: L) := by
  have hmemNe : ∀ p, (L.lookup p).isSome → p ≠ nid := by
    intro p hp hpe
    rw [hpe, hid] at hp
    simp at hp
  intro k w hk
  by_cases hke : k = nid
  · subst hke
    rw [lookup_cons_self] at hk
    injection hk with hk
    subst hk
    constructor
    · intro p hp
      rw [lookup_cons_ne (by intro hpe; exact hself (hpe ▸ hp))]
      exact hps p hp
    · rw [hv]
      congr 1
      apply maxFold_congr
      intro p hp
      have hne : p ≠ k := by intro hpe; exact hself (hpe ▸ hp)
      unfold layerVal
      rw [lookup_cons_ne hne]
  · rw [lookup_cons_ne hke] at hk
    obtain ⟨hps', hval⟩ := hcoh k w hk
    constructor
    · intro p hp
      rw [lookup_cons_ne (hmemNe p (hps' p hp))]
      exact hps' p hp
    · rw [hval]
      congr 1
      apply maxFold_congr
      intro p hp
      unfold layerVal
      rw [lookup_cons_ne (hmemNe p (hps' p hp))]

theorem transGen_rank {issues : List Issue} {r : String → Nat}
    (hr : ∀ a b, stepR issues a b → r b < r a) :
    ∀ {a b : String}, Relation.TransGen (stepR issues) a b → r b < r a := by
  intro a b h
  induction h with
  | single h1 => exact hr _ _ h1
  | tail h1 h2 ih => exact lt_trans (hr _ _ h2) ih

/-- Main invariant of computeLayer on graphs admitting a topological rank
(each prerequisite ranks strictly below its dependents, which is exactly
acyclicity of the structural graph): the call succeeds, never changes an
entry that is already stored or whose id is on the current path, keeps the
table coherent, and memoizes the requested id.  S carries the ancestors of
the current traversal path; every member of S reaches id through
prerequisite edges, which rules out the cycle-detected branch. -/
theorem computeLayerF_coherent (issues : List Issue) (r : String → Nat)
    (hr : ∀ a b, stepR issues a b → r b < r a) :
    ∀ (fuel : Nat) (id : String) (st : LState) (S : List String),
    id ∈ nodeIDs issues →
    remaining issues st.visited < fuel →
    Coherent issues st.layers →
    (∀ k ∈ st.visited, (st.layers.lookup k).isSome ∨ k ∈ S) →
    (∀ x ∈ S, Relation.TransGen (stepR issues) x id) →
    ∃ v st',
      computeLayerF issues fuel id st = some (v, st') ∧
      (∀ k w, st.layers.lookup k = some w → st'.layers.lookup k = some w) ∧
      (∀ k ∈ st.visited, st'.layers.lookup k = st.layers.lookup k) ∧
      Coherent issues st'.layers ∧
      st'.layers.lookup id = some v ∧
      st.visited ⊆ st'.visited ∧
      (∀ k ∈ st'.visited, (st'.layers.lookup k).isSome ∨ k ∈ S) := by
  intro fuel
  induction fuel with
  | zero =>
    intro id st S _ h
    exact absurd h (Nat.not_lt_zero _)
  | succ fuel ih =>
    have hfold : ∀ (ps : List String) (st : LState) (acc : Int) (S' : List String),
        (∀ p ∈ ps, p ∈ nodeIDs issues) →
        (∀ p ∈ ps, ∀ x ∈ S', Relation.TransGen (stepR issues) x p) →
        remaining issues st.visited < fuel →
        Coherent issues st.layers →
        (∀ k ∈ st.visited, (st.layers.lookup k).isSome ∨ k ∈ S') →
        ∃ m st₂,
          ps.foldl (layerStep issues fuel) (some (acc, st)) = some (m, st₂) ∧
          (∀ k w, st.layers.lookup k = some w → st₂.layers.lookup k = some w) ∧
          (∀ k ∈ st.visited, st₂.layers.lookup k = st.layers.lookup k) ∧
          Coherent issues st₂.layers ∧
          st.visited ⊆ st₂.visited ∧
          (∀ k ∈ st₂.visited, (st₂.layers.lookup k).isSome ∨ k ∈ S') ∧
          (∀ p ∈ ps, (st₂.layers.lookup p).isSome) ∧
          m = maxFold st₂.layers ps acc := by
      intro ps
      induction ps with
      | nil =>
        intro st acc S' _ _ _ hcoh hstack
        exact ⟨acc, st, rfl, fun _ _ h => h, fun _ _ => rfl, hcoh,
          List.Subset.refl _, hstack, fun p hp => absurd hp (List.not_mem_nil _), rfl⟩
      | cons p rest ihp =>
        intro st acc S' hmem hreach hrem hcoh hstack
        obtain ⟨v, st1, he, hext1, hfroz1, hcoh1, hlook1, hvis1, hstack1⟩ :=
          ih p st S' (hmem p (List.mem_cons_self _ _)) hrem hcoh hstack
            (hreach p (List.mem_cons_self _ _))
        have hrem1 : remaining issues st1.visited < fuel :=
          lt_of_le_of_lt (remaining_mono issues hvis1) hrem
        obtain ⟨m, st₂, he₂, hext₂, hfroz₂, hcoh₂, hvis₂, hstack₂, hps₂, hm₂⟩ :=
          ihp st1 (max acc v) S' (fun q hq => hmem q (List.mem_cons_of_mem _ hq))
            (fun q hq => hreach q (List.mem_cons_of_mem _ hq)) hrem1 hcoh1 hstack1
        refine ⟨m, st₂, ?_, ?_, ?_, hcoh₂, List.Subset.trans hvis1 hvis₂,
          hstack₂, ?_, ?_⟩
        · rw [List.foldl_cons]
          have hstep : layerStep issues fuel (some (acc, st)) p =
              some (max acc v, st1) := by
            simp [layerStep, he]
          rw [hstep, he₂]
        · exact fun k w h => hext₂ k w (hext1 k w h)
        · intro k hk
          rw [hfroz₂ k (hvis1 hk), hfroz1 k hk]
        · intro q hq
          rcases List.mem_cons.mp hq with rfl | hq'
          · have := hext₂ q v hlook1
            simp [this]
          · exact hps₂ q hq'
        · have hpv : st₂.layers.lookup p = some v := hext₂ p v hlook1
          have hstepfold : maxFold st₂.layers (p :: rest) acc =
              maxFold st₂.layers rest (max acc (layerVal st₂.layers p)) := rfl
          rw [hstepfold]
          unfold layerVal
          rw [hpv, Option.getD_some]
          exact hm₂
    intro id st S hid hrem hcoh hstack hreach
    cases hl : st.layers.lookup id with
    | some v =>
      refine ⟨v, st, ?_, fun _ _ h => h, fun _ _ => rfl, hcoh, hl,
        List.Subset.refl _, hstack⟩
      rw [computeLayerF_succ, hl]
    | none =>
      by_cases hv : id ∈ st.visited
      · rcases hstack id hv with hs | hs
        · rw [hl] at hs
          simp at hs
        · exact absurd (transGen_rank hr (hreach id hs)) (lt_irrefl _)
      · have hremc : remaining issues (id :: st.visited) < fuel := by
          have := remaining_cons_lt hid hv
          omega
        have hself : id ∉ prereqsU issues id := by
          intro hmem
          exact absurd (hr id id hmem) (lt_irrefl _)
        obtain ⟨m, st₂, hf, hext, hfroz, hcoh₂, hvis₂, hstack₂, hps₂, hm⟩ :=
          hfold (prereqsU issues id) ⟨st.layers, id :: st.visited⟩ (-1) (id :: S)
            (fun p hp => prereqsU_mem_nodeIDs hp)
            (fun p hp x hx => by
              rcases List.mem_cons.mp hx with rfl | hx'
              · exact Relation.TransGen.single hp
              · exact Relation.TransGen.tail (hreach x hx') hp)
            hremc hcoh
            (fun k hk => by
              rcases List.mem_cons.mp hk with rfl | hk'
              · exact Or.inr (List.mem_cons_self _ _)
              · rcases hstack k hk' with h | h
                · exact Or.inl h
                · exact Or.inr (List.mem_cons_of_mem _ h))
        have hid₂ : st₂.layers.lookup id = none := by
          have hfr := hfroz id (List.mem_cons_self _ _)
          rw [hfr]
          exact hl
        refine ⟨m + 1, ⟨(id, m + 1) :: st₂.layers, st₂.visited⟩, ?_, ?_, ?_, ?_, ?_, ?_, ?_⟩
        · rw [computeLayerF_succ, hl]
          simp only [if_neg hv]
          rw [hf]
        · intro k w h
          have hkne : k ≠ id := by
            intro he'
            rw [he', hl] at h
            exact Option.noConfusion h
          rw [lookup_cons_ne hkne]
          exact hext k w h
        · intro k hk
          have hkne : k ≠ id := fun he' => hv (he' ▸ hk)
          rw [lookup_cons_ne hkne]
          exact hfroz k (List.mem_cons_of_mem _ hk)
        · exact coherent_insert hcoh₂ hid₂ hps₂ (by rw [hm]) hself
        · exact lookup_cons_self
        · exact fun k hk => hvis₂ (List.mem_cons_of_mem _ hk)
        · intro k hk
          rcases hstack₂ k hk with h | h
          · refine Or.inl ?_
            by_cases hke : k = id
            · subst hke
              simp [lookup_cons_self]
            · rw [lookup_cons_ne hke]
              exact h
          · rcases List.mem_cons.mp h with rfl | h'
            · exact Or.inl (by simp [lookup_cons_self])
            · exact Or.inr h'

theorem computeLayerF_congr {issues₁ issues₂ : List Issue}
    (hpre : ∀ x, prereqsU issues₁ x = prereqsU issues₂ x) :
    ∀ (fuel : Nat) (id : String) (st : LState),
    computeLayerF issues₁ fuel id st = computeLayerF issues₂ fuel id st := by
  intro fuel
  induction fuel with
  | zero => intro id st; rfl
  | succ fuel ihf =>
    have hstep : layerStep issues₁ fuel = layerStep issues₂ fuel := by
      funext acc p
      unfold layerStep
      cases acc with
      | none => rfl
      | some mxst =>
        obtain ⟨mx, st1⟩ := mxst
        simp only [ihf]
    intro id st
    rw [computeLayerF_succ, computeLayerF_succ, hpre id, hstep]

theorem computeAllLayers_congr {issues₁ issues₂ : List Issue}
    (hpre : ∀ x, prereqsU issues₁ x = prereqsU issues₂ x)
    (hnode : nodeIDs issues₁ = nodeIDs issues₂) (order : List String) :
    computeAllLayers issues₁ order = computeAllLayers issues₂ order := by
  have hbound : fuelBound issues₁ = fuelBound issues₂ := by
    unfold fuelBound
    rw [hnode]
  have hlf : layersFold issues₁ = layersFold issues₂ := by
    funext L id
    unfold layersFold
    rw [hbound, computeLayerF_congr hpre]
  unfold computeAllLayers
  rw [hlf]

theorem issueMapLookup_isSome (issues : List Issue) (x : String) :
    (issueMapLookup issues x).isSome ↔ x ∈ nodeIDs issues := by
  unfold issueMapLookup nodeIDs
  rw [List.find?_isSome, List.mem_dedup, List.mem_map]
  constructor
  · rintro ⟨i, hi, hp⟩
    exact ⟨i, List.mem_reverse.mp hi, by simpa using hp⟩
  · rintro ⟨i, hi, hp⟩
    exact ⟨i, List.mem_reverse.mpr hi, by simpa using hp⟩

theorem option_map_const_congr {α β γ : Type} {o₁ : Option α} {o₂ : Option β}
    (h : o₁.isSome ↔ o₂.isSome) (c : γ) :
    o₁.map (fun _ => c) = o₂.map (fun _ => c) := by
  cases o₁ <;> cases o₂ <;> simp_all

theorem nodesList_congr {issues₁ issues₂ : List Issue}
    (hL : ∀ order, computeAllLayers issues₁ order = computeAllLayers issues₂ order)
    (hsome : ∀ x, (issueMapLookup issues₁ x).isSome ↔ (issueMapLookup issues₂ x).isSome)
    (order : List String) :
    nodesList issues₁ order = nodesList issues₂ order := by
  unfold nodesList
  rw [hL order]
  congr 1
  apply List.map_congr_left
  intro l _
  have hfun : (fun k => (issueMapLookup issues₁ k).map
      (fun _ => GNode.mk k (l : Int))) = (fun k => (issueMapLookup issues₂ k).map
      (fun _ => GNode.mk k (l : Int))) :=
    funext fun k => option_map_const_congr (hsome k) _
  rw [hfun]

theorem filterMap_filter_none {α β : Type} (f : α → Option β) (p : α → Bool)
    (l : List α) (h : ∀ d ∈ l, p d = false → f d = none) :
    (l.filter p).filterMap f = l.filterMap f := by
  induction l with
  | nil => rfl
  | cons d rest ih =>
    have ih' := ih (fun e he hpe => h e (List.mem_cons_of_mem _ he) hpe)
    cases hp : p d with
    | true =>
      simp [List.filter_cons, hp, List.filterMap_cons, ih']
    | false =>
      have hf := h d (List.mem_cons_self _ _) hp
      simp [List.filter_cons, hp, List.filterMap_cons, hf, ih']

/-- The issue list with all non-structural dependencies removed. -/
def pruneNonStructural (issues : List Issue) : List Issue :=
  issues.map (fun i => ⟨i.id, i.deps.filter (fun d => isStructural d.depType)⟩)

theorem nodeIDs_pruneNonStructural (issues : List Issue) :
    nodeIDs (pruneNonStructural issues) = nodeIDs issues := by
  unfold nodeIDs pruneNonStructural
  rw [List.map_map]
  rfl

theorem dependsOn_pruneNonStructural (issues : List Issue) (x : String) :
    dependsOn (pruneNonStructural issues) x = dependsOn issues x := by
  unfold dependsOn pruneNonStructural
  rw [List.filter_map, List.map_map]
  congr 1
  apply List.map_congr_left
  intro i _
  show structuralTargets ⟨i.id, i.deps.filter (fun d => isStructural d.depType)⟩ =
    structuralTargets i
  unfold structuralTargets
  rw [List.filter_filter]
  have hand : (fun d => isStructural d.depType && isStructural d.depType) =
      (fun d : Dep => isStructural d.depType) := funext fun d => Bool.and_self _
  rw [hand]

theorem prereqsU_pruneNonStructural (issues : List Issue) (x : String) :
    prereqsU (pruneNonStructural issues) x = prereqsU issues x := by
  unfold prereqsU
  rw [dependsOn_pruneNonStructural, nodeIDs_pruneNonStructural]

/-- C6: only structural dependency kinds (blocks, parent-child) participate
in graph construction: removing every non-structural dependency changes
neither the adjacency map, nor the traversed prerequisites, nor the layer
computation, nor the node list, nor the drawn edge list. -/
theorem c6_only_structural_participates (issues : List Issue)
    (order : List String) :
    (∀ x, dependsOn (pruneNonStructural issues) x = dependsOn issues x) ∧
    (∀ x, prereqsU (pruneNonStructural issues) x = prereqsU issues x) ∧
    computeAllLayers (pruneNonStructural issues) order =
      computeAllLayers issues order ∧
    nodesList (pruneNonStructural issues) order = nodesList issues order ∧
    edgesList (pruneNonStructural issues) order = edgesList issues order := by
  have hL : ∀ o, computeAllLayers (pruneNonStructural issues) o =
      computeAllLayers issues o :=
    computeAllLayers_congr (prereqsU_pruneNonStructural issues)
      (nodeIDs_pruneNonStructural issues)
  have hsome : ∀ x, (issueMapLookup (pruneNonStructural issues) x).isSome ↔
      (issueMapLookup issues x).isSome := by
    intro x
    rw [issueMapLookup_isSome, issueMapLookup_isSome, nodeIDs_pruneNonStructural]
  have hns := nodesList_congr hL hsome order
  refine ⟨dependsOn_pruneNonStructural issues,
    prereqsU_pruneNonStructural issues, hL order, hns, ?_⟩
  unfold edgesList
  rw [hns]
  unfold pruneNonStructural
  rw [List.map_map]
  congr 1
  apply List.map_congr_left
  intro i _
  show (match nodeIdxOf (nodesList issues order) i.id with
    | none => []
    | some di =>
      (i.deps.filter (fun d : Dep => isStructural d.depType)).filterMap
        (fun d : Dep =>
          if isStructural d.depType then
            (nodeIdxOf (nodesList issues order) d.dependsOnID).map
              (fun si => GEdge.mk si di d.depType)
          else none)) =
    (match nodeIdxOf (nodesList issues order) i.id with
    | none => []
    | some di =>
      i.deps.filterMap (fun d : Dep =>
        if isStructural d.depType then
          (nodeIdxOf (nodesList issues order) d.dependsOnID).map
            (fun si => GEdge.mk si di d.depType)
        else none))
  cases hdi : nodeIdxOf (nodesList issues order) i.id with
  | none => rfl
  | some di =>
    exact filterMap_filter_none _ _ _ (fun d _ hd => by simp [hd])

/-- The issue list with every dependency on an unknown id removed. -/
def pruneDangling (issues : List Issue) : List Issue :=
  issues.map (fun i => ⟨i.id,
    i.deps.filter (fun d => decide (d.dependsOnID ∈ nodeIDs issues))⟩)

theorem nodeIDs_pruneDangling (issues : List Issue) :
    nodeIDs (pruneDangling issues) = nodeIDs issues := by
  unfold nodeIDs pruneDangling
  rw [List.map_map]
  rfl

theorem structuralTargets_pruneDangling (issues : List Issue) (i : Issue) :
    structuralTargets ⟨i.id,
        i.deps.filter (fun d => decide (d.dependsOnID ∈ nodeIDs issues))⟩ =
      (structuralTargets i).filter (fun p => decide (p ∈ nodeIDs issues)) := by
  unfold structuralTargets
  rw [List.filter_filter, List.filter_map, List.filter_filter]
  congr 1
  apply List.filter_congr
  intro d _
  exact Bool.and_comm _ _

theorem dependsOn_pruneDangling (issues : List Issue) (x : String) :
    dependsOn (pruneDangling issues) x =
      (dependsOn issues x).filter (fun p => decide (p ∈ nodeIDs issues)) := by
  unfold dependsOn pruneDangling
  rw [List.filter_map, List.map_map, List.filter_flatten, List.map_map]
  congr 1
  apply List.map_congr_left
  intro i _
  exact structuralTargets_pruneDangling issues i

theorem prereqsU_pruneDangling (issues : List Issue) (x : String) :
    prereqsU (pruneDangling issues) x = prereqsU issues x := by
  unfold prereqsU
  rw [dependsOn_pruneDangling, nodeIDs_pruneDangling, List.filter_filter]
  congr 1
  funext p
  exact Bool.and_self _

theorem nodesList_id_mem {issues : List Issue} {order : List String} {n : GNode}
    (h : n ∈ nodesList issues order) : n.id ∈ nodeIDs issues := by
  unfold nodesList at h
  rw [List.mem_flatten] at h
  obtain ⟨l, hl, hn⟩ := h
  rw [List.mem_map] at hl
  obtain ⟨lay, hlay, rfl⟩ := hl
  rw [List.mem_filterMap] at hn
  obtain ⟨k, hk, hkn⟩ := hn
  cases hi : issueMapLookup issues k with
  | none =>
    rw [hi] at hkn
    exact Option.noConfusion hkn
  | some i0 =>
    rw [hi] at hkn
    injection hkn with hkn
    rw [← hkn]
    exact (issueMapLookup_isSome issues k).mp (by rw [hi]; rfl)

theorem nodeIdxOf_eq_none (issues : List Issue) (order : List String)
    {x : String} (hx : x ∉ nodeIDs issues) :
    nodeIdxOf (nodesList issues order) x = none := by
  unfold nodeIdxOf
  rw [List.findIdx?_eq_none_iff]
  intro n hn
  cases hb : (n.id == x) with
  | false => rfl
  | true =>
    have : n.id = x := by simpa using hb
    exact absurd (this ▸ nodesList_id_mem hn) hx

/-- C7: an edge whose endpoint references an unknown id is silently dropped:
removing all such dependencies changes neither the traversed prerequisites,
nor the layer computation, nor the node list, nor the drawn edge list; and
construction is total, so no input fails. -/
theorem c7_unknown_endpoints_dropped (issues : List Issue)
    (order : List String) :
    (∀ x, prereqsU (pruneDangling issues) x = prereqsU issues x) ∧
    computeAllLayers (pruneDangling issues) order =
      computeAllLayers issues order ∧
    nodesList (pruneDangling issues) order = nodesList issues order ∧
    edgesList (pruneDangling issues) order = edgesList issues order := by
  have hL : ∀ o, computeAllLayers (pruneDangling issues) o =
      computeAllLayers issues o :=
    computeAllLayers_congr (prereqsU_pruneDangling issues)
      (nodeIDs_pruneDangling issues)
  have hsome : ∀ x, (issueMapLookup (pruneDangling issues) x).isSome ↔
      (issueMapLookup issues x).isSome := by
    intro x
    rw [issueMapLookup_isSome, issueMapLookup_isSome, nodeIDs_pruneDangling]
  have hns := nodesList_congr hL hsome order
  refine ⟨prereqsU_pruneDangling issues, hL order, hns, ?_⟩
  unfold edgesList
  rw [hns]
  unfold pruneDangling
  rw [List.map_map]
  congr 1
  apply List.map_congr_left
  intro i _
  show (match nodeIdxOf (nodesList issues order) i.id with
    | none => []
    | some di =>
      (i.deps.filter (fun d : Dep =>
          decide (d.dependsOnID ∈ nodeIDs issues))).filterMap
        (fun d : Dep =>
          if isStructural d.depType then
            (nodeIdxOf (nodesList issues order) d.dependsOnID).map
              (fun si => GEdge.mk si di d.depType)
          else none)) =
    (match nodeIdxOf (nodesList issues order) i.id with
    | none => []
    | some di =>
      i.deps.filterMap (fun d : Dep =>
        if isStructural d.depType then
          (nodeIdxOf (nodesList issues order) d.dependsOnID).map
            (fun si => GEdge.mk si di d.depType)
        else none))
  cases hdi : nodeIdxOf (nodesList issues order) i.id with
  | none => rfl
  | some di =>
    refine filterMap_filter_none _ _ _ (fun d _ hd => ?_)
    have hmem : d.dependsOnID ∉ nodeIDs issues := of_decide_eq_false hd
    simp [nodeIdxOf_eq_none issues order hmem]

theorem length_filterMap_isSome {α β : Type} (f : α → Option β) (l : List α) :
    (l.filterMap f).length = (l.filter (fun a => (f a).isSome)).length := by
  induction l with
  | nil => rfl
  | cons d rest ih =>
    cases hf : f d with
    | none => simp [List.filterMap_cons, List.filter_cons, hf, ih]
    | some b => simp [List.filterMap_cons, List.filter_cons, hf, ih]

/-- C8 counterexample: the builder does not deduplicate.  With two identical
structural blocks dependencies from a to b, the adjacency entry for a lists
b twice and the edge list contains the same edge twice. -/
theorem c8_duplicate_edges_counterexample :
    (dependsOn [⟨"a", [⟨"b", .blocks⟩, ⟨"b", .blocks⟩]⟩, ⟨"b", []⟩] "a").count "b"
      = 2 ∧
    ¬ ((dependsOn [⟨"a", [⟨"b", .blocks⟩, ⟨"b", .blocks⟩]⟩, ⟨"b", []⟩]
      "a").count "b" ≤ 1) ∧
    edgesList [⟨"a", [⟨"b", .blocks⟩, ⟨"b", .blocks⟩]⟩, ⟨"b", []⟩] ["a", "b"] =
      [⟨0, 1, .blocks⟩, ⟨0, 1, .blocks⟩] := by
  refine ⟨by decide, by decide, by decide⟩

/-- C8 amended: the graph builder excludes non-structural kinds and unknown
endpoints but performs no deduplication: the edge list carries exactly one
edge per occurrence of a structural dependency whose endpoints both resolve,
and the adjacency entry for an id carries one target per occurrence. -/
theorem c8_no_deduplication (issues : List Issue) (order : List String) :
    ((edgesList issues order).length =
      ((issues.map (fun i =>
        if (nodeIdxOf (nodesList issues order) i.id).isSome then
          (i.deps.filter (fun d => isStructural d.depType &&
            (nodeIdxOf (nodesList issues order) d.dependsOnID).isSome)).length
        else 0)).sum)) ∧
    dependsOn [⟨"a", [⟨"b", .blocks⟩, ⟨"b", .blocks⟩]⟩, ⟨"b", []⟩] "a" =
      ["b", "b"] := by
  refine ⟨?_, by decide⟩
  unfold edgesList
  rw [List.length_flatten, List.map_map]
  congr 1
  apply List.map_congr_left
  intro i _
  show (match nodeIdxOf (nodesList issues order) i.id with
    | none => ([] : List GEdge)
    | some di =>
      i.deps.filterMap (fun d : Dep =>
        if isStructural d.depType then
          (nodeIdxOf (nodesList issues order) d.dependsOnID).map
            (fun si => GEdge.mk si di d.depType)
        else none)).length =
    if (nodeIdxOf (nodesList issues order) i.id).isSome then
      (i.deps.filter (fun d => isStructural d.depType &&
        (nodeIdxOf (nodesList issues order) d.dependsOnID).isSome)).length
    else 0
  cases hdi : nodeIdxOf (nodesList issues order) i.id with
  | none => simp
  | some di =>
    rw [length_filterMap_isSome]
    have hfn : (fun d : Dep => (if isStructural d.depType then
        (nodeIdxOf (nodesList issues order) d.dependsOnID).map
          (fun si => GEdge.mk si di d.depType) else none).isSome) =
      (fun d : Dep => isStructural d.depType &&
        (nodeIdxOf (nodesList issues order) d.dependsOnID).isSome) := by
      funext d
      cases hs : isStructural d.depType with
      | false => simp [hs]
      | true => simp [hs]
    rw [hfn]
    simp

theorem computeAllLayers_coherent (issues : List Issue) (r : String → Nat)
    (hr : ∀ a b, stepR issues a b → r b < r a) :
    ∀ (order : List String) (L : List (String × Int)),
    (∀ x ∈ order, x ∈ nodeIDs issues) →
    Coherent issues L →
    Coherent issues (order.foldl (layersFold issues) L) ∧
    (∀ k w, L.lookup k = some w →
      (order.foldl (layersFold issues) L).lookup k = some w) ∧
    (∀ x ∈ order, ((order.foldl (layersFold issues) L).lookup x).isSome) := by
  intro order
  induction order with
  | nil =>
    intro L _ hcoh
    exact ⟨hcoh, fun _ _ h => h, fun x hx => absurd hx (List.not_mem_nil _)⟩
  | cons id rest ihr =>
    intro L horder hcoh
    have hrem : remaining issues ([] : List String) < fuelBound issues := by
      rw [remaining_nil]
      exact Nat.lt_succ_self _
    obtain ⟨v, st', he, hext, hfroz, hcoh', hlook, hvism, hstack'⟩ :=
      computeLayerF_coherent issues r hr (fuelBound issues) id ⟨L, []⟩ []
        (horder id (List.mem_cons_self _ _)) hrem hcoh
        (fun k hk => absurd hk (List.not_mem_nil _))
        (fun x hx => absurd hx (List.not_mem_nil _))
    have hstep : layersFold issues L id = st'.layers := by
      simp [layersFold, he]
    obtain ⟨hcohF, hextF, hallF⟩ :=
      ihr st'.layers (fun q hq => horder q (List.mem_cons_of_mem _ hq)) hcoh'
    rw [List.foldl_cons, hstep]
    refine ⟨hcohF, ?_, ?_⟩
    · exact fun k w h => hextF k w (hext k w h)
    · intro x hx
      rcases List.mem_cons.mp hx with rfl | hx'
      · have := hextF x v hlook
        simp [this]
      · exact hallF x hx'

theorem mem_dependsOn {issues : List Issue} {x b : String} :
    b ∈ dependsOn issues x ↔ ∃ i, i ∈ issues ∧ i.id = x ∧ b ∈ structuralTargets i := by
  unfold dependsOn
  rw [List.mem_flatten]
  constructor
  · rintro ⟨l, hl, hb⟩
    rw [List.mem_map] at hl
    obtain ⟨i, hi, rfl⟩ := hl
    rw [List.mem_filter] at hi
    exact ⟨i, hi.1, by simpa using hi.2, hb⟩
  · rintro ⟨i, hi, hid, hb⟩
    refine ⟨structuralTargets i, ?_, hb⟩
    rw [List.mem_map]
    exact ⟨i, List.mem_filter.mpr ⟨hi, by simpa using hid⟩, rfl⟩

/-- C4: on structural graphs admitting a topological rank (equivalently,
acyclic ones), the final layers map satisfies the critical-path recurrence
at every node: the stored score is one more than the running maximum,
started at -1, of the scores of the present structural prerequisites —
hence 0 for a node with no prerequisites, and otherwise 1 plus the maximum
prerequisite score, attained at one of them.  The four-node chain a, b, c, d
(each depending on the previous) evaluates to scores 0, 1, 2, 3. -/
theorem c4_critical_path_scores (issues : List Issue) (order : List String)
    (r : String → Nat) (hr : ∀ a b, stepR issues a b → r b < r a)
    (hcov : ∀ x ∈ order, x ∈ nodeIDs issues)
    (hall : ∀ x ∈ nodeIDs issues, x ∈ order) :
    (∀ id ∈ nodeIDs issues, ∃ v,
      (computeAllLayers issues order).lookup id = some v ∧
      v = maxFold (computeAllLayers issues order) (prereqsU issues id) (-1) + 1 ∧
      0 ≤ v ∧
      (prereqsU issues id = [] → v = 0) ∧
      (prereqsU issues id ≠ [] →
        (∃ p ∈ prereqsU issues id,
          v = layerVal (computeAllLayers issues order) p + 1) ∧
        (∀ p ∈ prereqsU issues id,
          layerVal (computeAllLayers issues order) p + 1 ≤ v))) ∧
    ((computeAllLayers
        [⟨"a", []⟩, ⟨"b", [⟨"a", .blocks⟩]⟩, ⟨"c", [⟨"b", .blocks⟩]⟩,
          ⟨"d", [⟨"c", .blocks⟩]⟩] ["a", "b", "c", "d"]).lookup "a" = some 0 ∧
      (computeAllLayers
        [⟨"a", []⟩, ⟨"b", [⟨"a", .blocks⟩]⟩, ⟨"c", [⟨"b", .blocks⟩]⟩,
          ⟨"d", [⟨"c", .blocks⟩]⟩] ["a", "b", "c", "d"]).lookup "b" = some 1 ∧
      (computeAllLayers
        [⟨"a", []⟩, ⟨"b", [⟨"a", .blocks⟩]⟩, ⟨"c", [⟨"b", .blocks⟩]⟩,
          ⟨"d", [⟨"c", .blocks⟩]⟩] ["a", "b", "c", "d"]).lookup "c" = some 2 ∧
      (computeAllLayers
        [⟨"a", []⟩, ⟨"b", [⟨"a", .blocks⟩]⟩, ⟨"c", [⟨"b", .blocks⟩]⟩,
          ⟨"d", [⟨"c", .blocks⟩]⟩] ["a", "b", "c", "d"]).lookup "d" = some 3) := by
  constructor
  · obtain ⟨hcohF, -, hallF⟩ :=
      computeAllLayers_coherent issues r hr order [] hcov (coherent_nil issues)
    have hACL : (order.foldl (layersFold issues) [] : List (String × Int)) =
        computeAllLayers issues order := rfl
    rw [hACL] at hcohF hallF
    intro id hid
    have hsome := hallF id (hall id hid)
    obtain ⟨v, hv⟩ := Option.isSome_iff_exists.mp hsome
    obtain ⟨hps, hval⟩ := hcohF id v hv
    refine ⟨v, hv, hval, Coherent.nonneg hcohF hv, ?_, ?_⟩
    · intro hempty
      rw [hval, hempty]
      rfl
    · intro hne
      constructor
      · rcases maxFold_eq_acc_or_mem (computeAllLayers issues order)
          (prereqsU issues id) (-1) with hcase | ⟨p, hp, hcase⟩
        · obtain ⟨p₀, hp₀⟩ := List.exists_mem_of_ne_nil _ hne
          have h0 : 0 ≤ layerVal (computeAllLayers issues order) p₀ := by
            obtain ⟨w, hw⟩ := Option.isSome_iff_exists.mp (hps p₀ hp₀)
            have hwn := Coherent.nonneg hcohF hw
            unfold layerVal
            rw [hw]
            simpa using hwn
          have hle := layerVal_le_maxFold
            (computeAllLayers issues order) hp₀ (-1)
          rw [hcase] at hle
          omega
        · exact ⟨p, hp, by rw [hval, hcase]⟩
      · intro p hp
        have hle := layerVal_le_maxFold
          (computeAllLayers issues order) hp (-1)
        omega
  · exact ⟨by decide, by decide, by decide, by decide⟩

theorem c4_critical_path_scores_witness :
    (computeAllLayers
      [⟨"a", []⟩, ⟨"b", [⟨"a", .blocks⟩]⟩, ⟨"c", [⟨"b", .blocks⟩]⟩,
        ⟨"d", [⟨"c", .blocks⟩]⟩] ["a", "b", "c", "d"]).lookup "d" = some 3 := by
  have hr : ∀ a b, stepR
      [⟨"a", []⟩, ⟨"b", [⟨"a", .blocks⟩]⟩, ⟨"c", [⟨"b", .blocks⟩]⟩,
        ⟨"d", [⟨"c", .blocks⟩]⟩] a b →
      (fun s => if s = "b" then 1 else if s = "c" then 2 else
        if s = "d" then 3 else 0 : String → Nat) b <
      (fun s => if s = "b" then 1 else if s = "c" then 2 else
        if s = "d" then 3 else 0 : String → Nat) a := by
    intro a b h
    have hb : b ∈ dependsOn
        [⟨"a", []⟩, ⟨"b", [⟨"a", .blocks⟩]⟩, ⟨"c", [⟨"b", .blocks⟩]⟩,
          ⟨"d", [⟨"c", .blocks⟩]⟩] a := List.mem_of_mem_filter h
    rw [mem_dependsOn] at hb
    obtain ⟨i, hi, hid, hbt⟩ := hb
    simp only [List.mem_cons, List.not_mem_nil, or_false] at hi
    rcases hi with rfl | rfl | rfl | rfl
    · simp [structuralTargets] at hbt
    · simp only [structuralTargets, isStructural, List.filter, List.map,
        List.mem_singleton] at hbt
      subst hbt
      subst hid
      decide
    · simp only [structuralTargets, isStructural, List.filter, List.map,
        List.mem_singleton] at hbt
      subst hbt
      subst hid
      decide
    · simp only [structuralTargets, isStructural, List.filter, List.map,
        List.mem_singleton] at hbt
      subst hbt
      subst hid
      decide
  exact (c4_critical_path_scores
    [⟨"a", []⟩, ⟨"b", [⟨"a", .blocks⟩]⟩, ⟨"c", [⟨"b", .blocks⟩]⟩,
      ⟨"d", [⟨"c", .blocks⟩]⟩] ["a", "b", "c", "d"]
    (fun s => if s = "b" then 1 else if s = "c" then 2 else
      if s = "d" then 3 else 0) hr (by decide) (by decide)).2.2.2.2

/-! ### Graph view selection state (GraphModel navigation)

Source: the GraphModel holds the node list and a selectedNode index.
buildGraph resets an out-of-range selection to 0 (skipping the reset when
the issue list is empty, where it returns early); the navigation methods
move the selection only to indices found by their search loops.  Go would
panic on an out-of-range read; the embedding reads through getD with a
default, and the invariant proved below shows the default branch is never
taken. -/

structure GModel where
  issues : List Issue
  nodes : List GNode
  selectedNode : Int
deriving DecidableEq

def dfltNode : GNode := ⟨"", 0⟩

/-- Embedding of buildGraph as far as the selection state is concerned: on
an empty issue list it clears the graph and returns before the selection
reset; otherwise it lays out the nodes and resets an out-of-range
selection to 0. -/
def buildGraphStep (issues : List Issue) (order : List String) (sel : Int) :
    GModel :=
  if issues.isEmpty then ⟨issues, [], sel⟩
  else
    ⟨issues, nodesList issues order,
      if sel ≥ ((nodesList issues order).length : Int) then 0 else sel⟩

/-- NewGraphModel: the zero-valued selection then buildGraph. -/
def newGraphModel (issues : List Issue) (order : List String) : GModel :=
  buildGraphStep issues order 0

/-- SetIssues: replace the data and rebuild, keeping the selection. -/
def setIssues (m : GModel) (issues : List Issue) (order : List String) :
    GModel :=
  buildGraphStep issues order m.selectedNode

/-- MoveUp: previous index in the same layer, else last index in the
previous layer when one exists. -/
def moveUp (m : GModel) : GModel :=
  if m.nodes.isEmpty then m
  else
    match (List.range m.selectedNode.toNat).reverse.find?
        (fun i => (m.nodes.getD i dfltNode).layer ==
          (m.nodes.getD m.selectedNode.toNat dfltNode).layer) with
    | some i => { m with selectedNode := (i : Int) }
    | none =>
      if (m.nodes.getD m.selectedNode.toNat dfltNode).layer > 0 then
        match (List.range m.nodes.length).reverse.find?
            (fun i => (m.nodes.getD i dfltNode).layer ==
              (m.nodes.getD m.selectedNode.toNat dfltNode).layer - 1) with
        | some i => { m with selectedNode := (i : Int) }
        | none => m
      else m

/-- MoveDown: next index in the same layer, else first index in the next
layer. -/
def moveDown (m : GModel) : GModel :=
  if m.nodes.isEmpty then m
  else
    match ((List.range m.nodes.length).drop (m.selectedNode.toNat + 1)).find?
        (fun i => (m.nodes.getD i dfltNode).layer ==
          (m.nodes.getD m.selectedNode.toNat dfltNode).layer) with
    | some i => { m with selectedNode := (i : Int) }
    | none =>
      match (List.range m.nodes.length).find?
          (fun i => (m.nodes.getD i dfltNode).layer ==
            (m.nodes.getD m.selectedNode.toNat dfltNode).layer + 1) with
      | some i => { m with selectedNode := (i : Int) }
      | none => m

def moveLeft (m : GModel) : GModel :=
  if 0 < m.selectedNode then { m with selectedNode := m.selectedNode - 1 }
  else m

def moveRight (m : GModel) : GModel :=
  if m.selectedNode < (m.nodes.length : Int) - 1 then
    { m with selectedNode := m.selectedNode + 1 }
  else m

/-- SelectedIssue: nil when there are no nodes or the selection is at or
past the end, else the issueMap entry of the selected node id. -/
def selectedIssue (m : GModel) : Option Issue :=
  if m.nodes.length = 0 ∨ (m.nodes.length : Int) ≤ m.selectedNode then none
  else issueMapLookup m.issues ((m.nodes.getD m.selectedNode.toNat dfltNode).id)

/-- The selection invariant of the claim: non-negative, and strictly within
the node list whenever it is non-empty. -/
def GInv (m : GModel) : Prop :=
  0 ≤ m.selectedNode ∧ (m.nodes ≠ [] → m.selectedNode < (m.nodes.length : Int))

/-- The full state invariant: the selection invariant plus the fact that
every laid-out node has an issueMap entry. -/
def GWF (m : GModel) : Prop :=
  GInv m ∧ ∀ n ∈ m.nodes, (issueMapLookup m.issues n.id).isSome

theorem nodesList_lookup_isSome {issues : List Issue} {order : List String}
    {n : GNode} (h : n ∈ nodesList issues order) :
    (issueMapLookup issues n.id).isSome :=
  (issueMapLookup_isSome issues n.id).mpr (nodesList_id_mem h)

theorem gwf_buildGraphStep (issues : List Issue) (order : List String)
    {sel : Int} (hsel : 0 ≤ sel) : GWF (buildGraphStep issues order sel) := by
  unfold buildGraphStep
  by_cases he : issues.isEmpty
  · rw [if_pos he]
    exact ⟨⟨hsel, fun h => absurd rfl h⟩, fun n hn => absurd hn (List.not_mem_nil _)⟩
  · rw [if_neg he]
    refine ⟨⟨?_, ?_⟩, fun n hn => nodesList_lookup_isSome hn⟩
    · show 0 ≤ (if sel ≥ ((nodesList issues order).length : Int) then 0 else sel)
      split_ifs <;> omega
    · intro hne
      have hpos : 0 < (nodesList issues order).length := List.length_pos.mpr hne
      show (if sel ≥ ((nodesList issues order).length : Int) then 0 else sel) <
        ((nodesList issues order).length : Int)
      split_ifs <;> omega

theorem gwf_moveUp {m : GModel} (h : GWF m) : GWF (moveUp m) := by
  obtain ⟨⟨h0, hlt⟩, hwf⟩ := h
  unfold moveUp
  by_cases he : m.nodes.isEmpty
  · rw [if_pos he]
    exact ⟨⟨h0, hlt⟩, hwf⟩
  · rw [if_neg he]
    have hne : m.nodes ≠ [] := by simpa [List.isEmpty_iff] using he
    have hsel : m.selectedNode < (m.nodes.length : Int) := hlt hne
    cases hf : (List.range m.selectedNode.toNat).reverse.find?
        (fun i => (m.nodes.getD i dfltNode).layer ==
          (m.nodes.getD m.selectedNode.toNat dfltNode).layer) with
    | some i =>
      have hmem := List.mem_of_find?_eq_some hf
      rw [List.mem_reverse, List.mem_range] at hmem
      refine ⟨⟨?_, fun _ => ?_⟩, hwf⟩
      · show (0 : Int) ≤ (i : Int)
        omega
      · show (i : Int) < (m.nodes.length : Int)
        omega
    | none =>
      by_cases hl : (m.nodes.getD m.selectedNode.toNat dfltNode).layer > 0
      · rw [if_pos hl]
        cases hf2 : (List.range m.nodes.length).reverse.find?
            (fun i => (m.nodes.getD i dfltNode).layer ==
              (m.nodes.getD m.selectedNode.toNat dfltNode).layer - 1) with
        | some i =>
          have hmem := List.mem_of_find?_eq_some hf2
          rw [List.mem_reverse, List.mem_range] at hmem
          refine ⟨⟨?_, fun _ => ?_⟩, hwf⟩
          · show (0 : Int) ≤ (i : Int)
            omega
          · show (i : Int) < (m.nodes.length : Int)
            omega
        | none => exact ⟨⟨h0, hlt⟩, hwf⟩
      · rw [if_neg hl]
        exact ⟨⟨h0, hlt⟩, hwf⟩

theorem gwf_moveDown {m : GModel} (h : GWF m) : GWF (moveDown m) := by
  obtain ⟨⟨h0, hlt⟩, hwf⟩ := h
  unfold moveDown
  by_cases he : m.nodes.isEmpty
  · rw [if_pos he]
    exact ⟨⟨h0, hlt⟩, hwf⟩
  · rw [if_neg he]
    cases hf : ((List.range m.nodes.length).drop (m.selectedNode.toNat + 1)).find?
        (fun i => (m.nodes.getD i dfltNode).layer ==
          (m.nodes.getD m.selectedNode.toNat dfltNode).layer) with
    | some i =>
      have hmem := List.mem_range.mp
        (List.mem_of_mem_drop (List.mem_of_find?_eq_some hf))
      refine ⟨⟨?_, fun _ => ?_⟩, hwf⟩
      · show (0 : Int) ≤ (i : Int)
        omega
      · show (i : Int) < (m.nodes.length : Int)
        omega
    | none =>
      cases hf2 : (List.range m.nodes.length).find?
          (fun i => (m.nodes.getD i dfltNode).layer ==
            (m.nodes.getD m.selectedNode.toNat dfltNode).layer + 1) with
      | some i =>
        have hmem := List.mem_range.mp (List.mem_of_find?_eq_some hf2)
        refine ⟨⟨?_, fun _ => ?_⟩, hwf⟩
        · show (0 : Int) ≤ (i : Int)
          omega
        · show (i : Int) < (m.nodes.length : Int)
          omega
      | none => exact ⟨⟨h0, hlt⟩, hwf⟩

theorem gwf_moveLeft {m : GModel} (h : GWF m) : GWF (moveLeft m) := by
  obtain ⟨⟨h0, hlt⟩, hwf⟩ := h
  unfold moveLeft
  by_cases hp : 0 < m.selectedNode
  · rw [if_pos hp]
    refine ⟨⟨?_, fun hne => ?_⟩, hwf⟩
    · show 0 ≤ m.selectedNode - 1
      omega
    · have := hlt hne
      show m.selectedNode - 1 < (m.nodes.length : Int)
      omega
  · rw [if_neg hp]
    exact ⟨⟨h0, hlt⟩, hwf⟩

theorem gwf_moveRight {m : GModel} (h : GWF m) : GWF (moveRight m) := by
  obtain ⟨⟨h0, hlt⟩, hwf⟩ := h
  unfold moveRight
  by_cases hp : m.selectedNode < (m.nodes.length : Int) - 1
  · rw [if_pos hp]
    refine ⟨⟨?_, fun _ => ?_⟩, hwf⟩
    · show 0 ≤ m.selectedNode + 1
      omega
    · show m.selectedNode + 1 < (m.nodes.length : Int)
      omega
  · rw [if_neg hp]
    exact ⟨⟨h0, hlt⟩, hwf⟩

theorem selectedIssue_none_iff {m : GModel} (h : GWF m) :
    (selectedIssue m = none ↔ m.nodes = []) := by
  obtain ⟨⟨h0, hlt⟩, hwf⟩ := h
  by_cases hne : m.nodes = []
  · simp [selectedIssue, hne]
  · have hsel : m.selectedNode < (m.nodes.length : Int) := hlt hne
    have hcond : ¬ (m.nodes.length = 0 ∨
        (m.nodes.length : Int) ≤ m.selectedNode) := by
      push_neg
      constructor
      · exact fun hz => hne (List.length_eq_zero.mp hz)
      · omega
    have hbound : m.selectedNode.toNat < m.nodes.length := by omega
    have hmem : m.nodes.getD m.selectedNode.toNat dfltNode ∈ m.nodes := by
      rw [List.getD_eq_getElem m.nodes dfltNode hbound]
      exact List.getElem_mem hbound
    have hsome := hwf _ hmem
    rw [selectedIssue, if_neg hcond]
    constructor
    · intro hnone
      rw [hnone] at hsome
      exact absurd hsome (by simp)
    · intro habs
      exact absurd habs hne

/-- C10: the graph view keeps its selection in bounds: the invariant
(selection non-negative and, when the node list is non-empty, strictly
below its length) holds after construction, is preserved by SetIssues and
by each navigation method, and under it SelectedIssue returns nil exactly
when the node list is empty. -/
theorem c10_selection_invariant :
    (∀ issues order, GWF (newGraphModel issues order)) ∧
    (∀ m issues order, GWF m → GWF (setIssues m issues order)) ∧
    (∀ m, GWF m →
      GWF (moveUp m) ∧ GWF (moveDown m) ∧ GWF (moveLeft m) ∧ GWF (moveRight m)) ∧
    (∀ m, GWF m → (selectedIssue m = none ↔ m.nodes = [])) := by
  refine ⟨?_, ?_, ?_, ?_⟩
  · intro issues order
    exact gwf_buildGraphStep issues order le_rfl
  · intro m issues order hm
    exact gwf_buildGraphStep issues order hm.1.1
  · intro m hm
    exact ⟨gwf_moveUp hm, gwf_moveDown hm, gwf_moveLeft hm, gwf_moveRight hm⟩
  · intro m hm
    exact selectedIssue_none_iff hm

theorem c10_selection_invariant_witness :
    selectedIssue (newGraphModel [⟨"a", []⟩] ["a"]) = none ↔
      (newGraphModel [⟨"a", []⟩] ["a"]).nodes = [] :=
  c10_selection_invariant.2.2.2 _ (c10_selection_invariant.1 [⟨"a", []⟩] ["a"])

/-- C5 counterexample: in the two-node cycle a depends on b, b depends on a
(both structural, no other prerequisites), the spec policy of ignoring
cyclic edges would give both nodes score 0, but the code scores neither node
0 under either processing order: the first-processed node receives 2 and the
other 1, because the cycle-detected branch returns 0 and that 0 feeds the
running maximum. -/
theorem c5_cycle_scores_counterexample :
    ((computeAllLayers [⟨"a", [⟨"b", .blocks⟩]⟩, ⟨"b", [⟨"a", .blocks⟩]⟩]
        ["a", "b"]).lookup "a" = some 2) ∧
    ((computeAllLayers [⟨"a", [⟨"b", .blocks⟩]⟩, ⟨"b", [⟨"a", .blocks⟩]⟩]
        ["a", "b"]).lookup "b" = some 1) ∧
    ((computeAllLayers [⟨"a", [⟨"b", .blocks⟩]⟩, ⟨"b", [⟨"a", .blocks⟩]⟩]
        ["b", "a"]).lookup "a" = some 1) ∧
    ((computeAllLayers [⟨"a", [⟨"b", .blocks⟩]⟩, ⟨"b", [⟨"a", .blocks⟩]⟩]
        ["b", "a"]).lookup "b" = some 2) ∧
    ((computeAllLayers [⟨"a", [⟨"b", .blocks⟩]⟩, ⟨"b", [⟨"a", .blocks⟩]⟩]
        ["a", "b"]).lookup "a" ≠ some 0) ∧
    ((computeAllLayers [⟨"a", [⟨"b", .blocks⟩]⟩, ⟨"b", [⟨"a", .blocks⟩]⟩]
        ["b", "a"]).lookup "a" ≠ some 0) := by
  refine ⟨by decide, by decide, by decide, by decide, by decide, by decide⟩

/-- C5 amended: the layer computation terminates on every graph, cyclic ones
included — every id the buildGraph loop processes receives a layer value —
but cyclic edges are not ignored: a prerequisite already on the current
traversal path contributes score 0 to the running maximum, so in the pure
two-node cycle the first-processed node gets layer 2 and the other layer 1
(not 0 and 0). -/
theorem c5_cycle_terminates_with_zero_contribution (issues : List Issue)
    (order : List String) (horder : ∀ id ∈ order, id ∈ nodeIDs issues) :
    (∀ id ∈ order, ((computeAllLayers issues order).lookup id).isSome) ∧
    ((computeAllLayers [⟨"a", [⟨"b", .blocks⟩]⟩, ⟨"b", [⟨"a", .blocks⟩]⟩]
        ["a", "b"]).lookup "a" = some 2 ∧
      (computeAllLayers [⟨"a", [⟨"b", .blocks⟩]⟩, ⟨"b", [⟨"a", .blocks⟩]⟩]
        ["a", "b"]).lookup "b" = some 1) := by
  constructor
  · intro id hid
    exact computeAllLayers_fold_isSome issues order [] horder id (Or.inl hid)
  · exact ⟨by decide, by decide⟩

theorem c5_cycle_terminates_with_zero_contribution_witness :
    ((computeAllLayers [⟨"a", [⟨"b", .blocks⟩]⟩, ⟨"b", [⟨"a", .blocks⟩]⟩]
        ["a", "b"]).lookup "a").isSome :=
  (c5_cycle_terminates_with_zero_contribution
      [⟨"a", [⟨"b", .blocks⟩]⟩, ⟨"b", [⟨"a", .blocks⟩]⟩] ["a", "b"]
      (by decide)).1 "a" (by decide)

end BeadsViewer
